import Mathlib

/-!
Shallow embedding of the RuiQi WAF inspection agent's stateful correlation
and flow-control layer:
the IP ban registry (`flow-controller/ip_record.go`), the transaction
correlation handlers (`internal/application.go`), and the write-behind
persisters (`MongoLogStore`, `MongoIPRecorder`).

Go wall-clock times are modelled as natural numbers (`Time`); `0` plays the
role of Go's zero `time.Time` (`IsZero`).  Go maps are modelled as
association lists with at most one binding per key, written and read through
`mget` / `mset` / `mdel` which mirror Go map indexing, assignment and
`delete`.  The `container/heap` package is external to the repository; its
documented contract (`Pop` removes and returns the minimum element with
respect to the owner's `Less`, here `expiresAt.Before`) is modelled by
`popMin`, which removes a minimal-expiry element from the heap slice.
-/

abbrev Time := Nat

/-- `model.BlockedIPRecord` (pkg/model): record of one banned source IP. -/
structure BlockedIPRecord where
  ip : String
  reason : String
  blockedAt : Time
  blockedUntil : Time
deriving Repr, DecidableEq

/-- `IPExpiryItem` (ip_record.go): heap entry owning an IP and its expiry.
The Go `index` field is bookkeeping internal to `container/heap`; in the
multiset model of the heap slice it has no observable content. -/
structure IPExpiryItem where
  ip : String
  expiresAt : Time
deriving Repr, DecidableEq

/-- Go map read `m[k]`: the value bound to `k`, if any. -/
def mget {β : Type} (m : List (String × β)) (k : String) : Option β :=
  match m with
  | [] => none
  | (k', v) :: rest => if k' = k then some v else mget rest k

/-- Go map assignment `m[k] = v`: replace the binding if present, else add. -/
def mset {β : Type} (m : List (String × β)) (k : String) (v : β) :
    List (String × β) :=
  match m with
  | [] => [(k, v)]
  | (k', v') :: rest =>
    if k' = k then (k, v) :: rest else (k', v') :: mset rest k v

/-- Go `delete(m, k)`: drop the binding of `k`, if any. -/
def mdel {β : Type} (m : List (String × β)) (k : String) :
    List (String × β) :=
  match m with
  | [] => []
  | (k', v') :: rest =>
    if k' = k then rest else (k', v') :: mdel rest k

theorem mget_mset_self {β : Type} (m : List (String × β)) (k : String) (v : β) :
    mget (mset m k v) k = some v := by
  induction m with
  | nil => simp [mget, mset]
  | cons hd tl ih =>
    obtain ⟨k', v'⟩ := hd
    by_cases h : k' = k <;> simp [mget, mset, h, ih]

theorem mset_length_present {β : Type} (m : List (String × β)) (k : String)
    (v : β) (h : (mget m k).isSome) :
    (mset m k v).length = m.length := by
  induction m with
  | nil => simp [mget] at h
  | cons hd tl ih =>
    obtain ⟨k', v'⟩ := hd
    by_cases hk : k' = k
    · simp [mset, hk]
    · simp [mget, hk] at h
      simp [mset, hk, ih h]

theorem mdel_length_le {β : Type} (m : List (String × β)) (k : String) :
    (mdel m k).length ≤ m.length := by
  induction m with
  | nil => simp [mdel]
  | cons hd tl ih =>
    obtain ⟨k', v'⟩ := hd
    by_cases hk : k' = k
    · simp [mdel, hk]
    · simp [mdel, hk]
      omega

theorem mdel_length_present {β : Type} (m : List (String × β)) (k : String)
    (h : (mget m k).isSome) :
    (mdel m k).length + 1 = m.length := by
  induction m with
  | nil => simp [mget] at h
  | cons hd tl ih =>
    obtain ⟨k', v'⟩ := hd
    by_cases hk : k' = k
    · simp [mdel, hk]
    · simp [mget, hk] at h
      simp [mdel, hk]
      have := ih h
      omega

/-- `MemoryIPRecorder` (ip_record.go): the in-memory IP ban registry.
`blockedIPs` is the IP → record map, `expiryItems` the IP → heap-entry map
(whose values alias the heap entries; aliasing is made explicit by updating
both), `expiryHeap` the slice managed by `container/heap`. -/
structure MemoryIPRecorder where
  blockedIPs : List (String × BlockedIPRecord)
  expiryItems : List (String × IPExpiryItem)
  expiryHeap : List IPExpiryItem
  capacity : Nat
deriving Repr

/-- `MemoryIPRecorder.IsIPBlocked` (ip_record.go): lock-free read of the
ban map; a missing record, a zero stored expiry, or `now.After(BlockedUntil)`
all answer not-blocked. -/
def MemoryIPRecorder.IsIPBlocked (r : MemoryIPRecorder) (now : Time)
    (ip : String) : Bool × Option BlockedIPRecord :=
  match mget r.blockedIPs ip with
  | none => (false, none)
  | some record =>
    if record.blockedUntil = 0 ∨ record.blockedUntil < now then (false, none)
    else (true, some record)

/-- C6: for an IP whose record is physically present in the lookup map, the
blocked-check answers true with the stored record exactly while the expiry is
nonzero and wall-clock time has not passed it; after the expiry passes, or on
a zero expiry, it answers false with no record. -/
theorem isIPBlocked_spec (r : MemoryIPRecorder) (now : Time) (ip : String)
    (rec : BlockedIPRecord) (h : mget r.blockedIPs ip = some rec) :
    (rec.blockedUntil ≠ 0 → now ≤ rec.blockedUntil →
      r.IsIPBlocked now ip = (true, some rec)) ∧
    (rec.blockedUntil < now → r.IsIPBlocked now ip = (false, none)) ∧
    (rec.blockedUntil = 0 → r.IsIPBlocked now ip = (false, none)) := by
  refine ⟨fun hz hle => ?_, fun hlt => ?_, fun hz => ?_⟩
  · simp [MemoryIPRecorder.IsIPBlocked, h, hz, Nat.not_lt.mpr hle]
  · simp [MemoryIPRecorder.IsIPBlocked, h, hlt]
  · simp [MemoryIPRecorder.IsIPBlocked, h, hz]

/-- Closed instance of `isIPBlocked_spec`. -/
theorem isIPBlocked_spec_witness :
    let rec0 : BlockedIPRecord :=
      { ip := "203.0.113.7", reason := "bruteforce",
        blockedAt := 5, blockedUntil := 100 }
    let r : MemoryIPRecorder :=
      { blockedIPs := [("203.0.113.7", rec0)],
        expiryItems := [("203.0.113.7", { ip := "203.0.113.7", expiresAt := 100 })],
        expiryHeap := [{ ip := "203.0.113.7", expiresAt := 100 }],
        capacity := 10000 }
    r.IsIPBlocked 50 "203.0.113.7" = (true, some rec0) ∧
    r.IsIPBlocked 101 "203.0.113.7" = (false, none) := by
  intro rec0 r
  have h := isIPBlocked_spec r 50 "203.0.113.7" rec0 (by decide)
  have h2 := isIPBlocked_spec r 101 "203.0.113.7" rec0 (by decide)
  exact ⟨h.1 (by decide) (by decide), h2.2.1 (by decide)⟩

/-- Contract of `heap.Pop` on `IPExpiryHeap` (`container/heap` is external
to the repository; its documented contract is that `Pop` removes and returns
the minimum element with respect to `Less`, which `IPExpiryHeap.Less` defines
as `expiresAt.Before`): remove a minimal-expiry element from the slice. -/
def popMin : List IPExpiryItem → Option (IPExpiryItem × List IPExpiryItem)
  | [] => none
  | x :: xs =>
    match popMin xs with
    | none => some (x, [])
    | some (m, rest) =>
      if m.expiresAt < x.expiresAt then some (m, x :: rest) else some (x, xs)

theorem popMin_none {h : List IPExpiryItem} (hp : popMin h = none) : h = [] := by
  cases h with
  | nil => rfl
  | cons x xs =>
    simp [popMin] at hp
    cases hpm : popMin xs with
    | none => simp [hpm] at hp
    | some p =>
      obtain ⟨m, rest⟩ := p
      simp [hpm] at hp
      by_cases hc : m.expiresAt < x.expiresAt <;> simp [hc] at hp

theorem popMin_perm {h : List IPExpiryItem} {m : IPExpiryItem}
    {rest : List IPExpiryItem} (hp : popMin h = some (m, rest)) :
    h.Perm (m :: rest) := by
  induction h generalizing m rest with
  | nil => simp [popMin] at hp
  | cons x xs ih =>
    simp only [popMin] at hp
    cases hpm : popMin xs with
    | none =>
      have hx : xs = [] := popMin_none hpm
      subst hx
      simp [hpm] at hp
      obtain ⟨h1, h2⟩ := hp
      subst h1; subst h2
      exact List.Perm.refl _
    | some p =>
      obtain ⟨m', rest'⟩ := p
      rw [hpm] at hp
      by_cases hc : m'.expiresAt < x.expiresAt
      · simp [hc] at hp
        obtain ⟨h1, h2⟩ := hp
        subst h1; subst h2
        have hperm := ih hpm
        exact (List.Perm.cons x hperm).trans (List.Perm.swap _ x rest')
      · simp [hc] at hp
        obtain ⟨h1, h2⟩ := hp
        subst h1; subst h2
        exact List.Perm.refl _

theorem popMin_min {h : List IPExpiryItem} {m : IPExpiryItem}
    {rest : List IPExpiryItem} (hp : popMin h = some (m, rest)) :
    ∀ x ∈ h, m.expiresAt ≤ x.expiresAt := by
  induction h generalizing m rest with
  | nil => simp [popMin] at hp
  | cons x xs ih =>
    simp only [popMin] at hp
    cases hpm : popMin xs with
    | none =>
      have hx : xs = [] := popMin_none hpm
      subst hx
      simp [hpm] at hp
      obtain ⟨h1, h2⟩ := hp
      subst h1
      simp
    | some p =>
      obtain ⟨m', rest'⟩ := p
      rw [hpm] at hp
      by_cases hc : m'.expiresAt < x.expiresAt
      · simp [hc] at hp
        obtain ⟨h1, h2⟩ := hp
        subst h1
        intro y hy
        rcases List.mem_cons.mp hy with hy | hy
        · subst hy
          exact Nat.le_of_lt hc
        · exact ih hpm y hy
      · simp [hc] at hp
        obtain ⟨h1, h2⟩ := hp
        subst h1
        intro y hy
        rcases List.mem_cons.mp hy with hy | hy
        · subst hy
          exact Nat.le_refl _
        · have hle := Nat.le_of_not_lt hc
          exact Nat.le_trans hle (ih hpm y hy)

theorem popMin_length {h : List IPExpiryItem} {m : IPExpiryItem}
    {rest : List IPExpiryItem} (hp : popMin h = some (m, rest)) :
    rest.length + 1 = h.length :=
  (popMin_perm hp).length_eq.symm

/-- `removed` is a sequence of successive minimum-pops carrying heap `h`
to heap `h'`. -/
inductive PopSeq : List IPExpiryItem → List IPExpiryItem → List IPExpiryItem → Prop
  | nil (h : List IPExpiryItem) : PopSeq h [] h
  | cons {h h₁ h₂ : List IPExpiryItem} {m : IPExpiryItem}
      {ms : List IPExpiryItem} (hp : popMin h = some (m, h₁))
      (hs : PopSeq h₁ ms h₂) : PopSeq h (m :: ms) h₂

theorem PopSeq.append {h h₁ h₂ : List IPExpiryItem}
    {ps qs : List IPExpiryItem} (h1 : PopSeq h ps h₁)
    (h2 : PopSeq h₁ qs h₂) : PopSeq h (ps ++ qs) h₂ := by
  induction h1 with
  | nil => simpa using h2
  | cons hp hs ih => exact PopSeq.cons hp (ih h2)

theorem PopSeq.perm {h h' : List IPExpiryItem} {ps : List IPExpiryItem}
    (hs : PopSeq h ps h') : h.Perm (ps ++ h') := by
  induction hs with
  | nil => simp
  | cons hp hs ih =>
    exact (popMin_perm hp).trans (List.Perm.cons _ ih)

theorem PopSeq.pairwise_and_min {h h' : List IPExpiryItem}
    {ps : List IPExpiryItem} (hs : PopSeq h ps h') :
    ps.Pairwise (fun a b => a.expiresAt ≤ b.expiresAt) ∧
    ∀ m ∈ ps, ∀ it ∈ h', m.expiresAt ≤ it.expiresAt := by
  induction hs with
  | nil => simp
  | cons hp hs ih =>
    rename_i hh h₁ h₂ m ms
    obtain ⟨ihp, ihm⟩ := ih
    have hmin := popMin_min hp
    have hsub : ∀ x, x ∈ ms ++ h₂ → x ∈ hh := by
      intro x hx
      have hmem : x ∈ h₁ := (hs.perm.mem_iff).mpr hx
      exact (popMin_perm hp).mem_iff.mpr (List.mem_cons_of_mem m hmem)
    constructor
    · refine List.Pairwise.cons ?_ ihp
      intro b hb
      exact hmin b (hsub b (List.mem_append_left _ hb))
    · intro x hx it hit
      rcases List.mem_cons.mp hx with hx | hx
      · subst hx
        exact hmin it (hsub it (List.mem_append_right _ hit))
      · exact ihm x hx it hit

/-- First loop of `MemoryIPRecorder.ensureCapacity` (ip_record.go): while the
heap is nonempty and the record map is at capacity (the map is untouched
inside this loop, so `mapLen` is constant), peek at the heap top; stop if it
has not yet expired (`expiresAt.After(now)`), otherwise pop it and collect its
IP for batch deletion.  Fuel bounds the iteration count by the heap length. -/
def popExpiredPhase (now : Time) (mapLen capacity : Nat) :
    Nat → List IPExpiryItem → List IPExpiryItem × List IPExpiryItem
  | 0, h => (h, [])
  | fuel + 1, h =>
    if mapLen < capacity then (h, [])
    else
      match popMin h with
      | none => (h, [])
      | some (m, rest) =>
        if now < m.expiresAt then (h, [])
        else
          let r := popExpiredPhase now mapLen capacity fuel rest
          (r.1, m :: r.2)

/-- Second loop of `MemoryIPRecorder.ensureCapacity` (ip_record.go): while
the record map is still at capacity and the heap is nonempty, pop the
earliest-expiring entry (even if unexpired) and delete it from both maps. -/
def forceEvictPhase (capacity : Nat) :
    Nat →
    List (String × BlockedIPRecord) × List (String × IPExpiryItem) ×
      List IPExpiryItem →
    (List (String × BlockedIPRecord) × List (String × IPExpiryItem) ×
      List IPExpiryItem) × List IPExpiryItem
  | 0, st => (st, [])
  | fuel + 1, (bm, em, h) =>
    if bm.length < capacity then ((bm, em, h), [])
    else
      match popMin h with
      | none => ((bm, em, h), [])
      | some (m, rest) =>
        let r := forceEvictPhase capacity fuel (mdel bm m.ip, mdel em m.ip, rest)
        (r.1, m :: r.2)

/-- `MemoryIPRecorder.ensureCapacity` (ip_record.go): if the record map is
below capacity do nothing; otherwise pop expired heap entries (batch-deleting
their map records afterwards), then, while still at capacity, forcibly evict
the earliest-expiring entry.  Returns the updated registry and the popped
heap entries in pop order. -/
def MemoryIPRecorder.ensureCapacity (r : MemoryIPRecorder) (now : Time) :
    MemoryIPRecorder × List IPExpiryItem :=
  if r.blockedIPs.length < r.capacity then (r, [])
  else
    let p1 := popExpiredPhase now r.blockedIPs.length r.capacity
      r.expiryHeap.length r.expiryHeap
    let bm1 := p1.2.foldl (fun m it => mdel m it.ip) r.blockedIPs
    let em1 := p1.2.foldl (fun m it => mdel m it.ip) r.expiryItems
    let p2 := forceEvictPhase r.capacity p1.1.length (bm1, em1, p1.1)
    ({ blockedIPs := p2.1.1, expiryItems := p2.1.2.1, expiryHeap := p2.1.2.2,
       capacity := r.capacity }, p1.2 ++ p2.2)

/-- `IPExpiryHeap.Update` (ip_record.go): set the expiry of the heap entry
owned by `ip` and re-fix its heap position; in the multiset model of the
slice this is an in-place replacement. -/
def heapUpdate (h : List IPExpiryItem) (ip : String) (expiresAt : Time) :
    List IPExpiryItem :=
  h.map fun it => if it.ip = ip then { it with expiresAt := expiresAt } else it

/-- `MemoryIPRecorder.RecordBlockedIP` (ip_record.go): on an IP that already
has a heap entry, replace its stored record and reposition the heap entry in
place; on a new IP, first make room via `ensureCapacity`, then insert the
record and push a fresh heap entry.  Also returns the evicted heap entries. -/
def MemoryIPRecorder.RecordBlockedIP (r : MemoryIPRecorder) (now : Time)
    (ip reason : String) (duration : Nat) :
    MemoryIPRecorder × List IPExpiryItem :=
  let expiresAt := now + duration
  let record : BlockedIPRecord :=
    { ip := ip, reason := reason, blockedAt := now, blockedUntil := expiresAt }
  match mget r.expiryItems ip with
  | some item =>
    ({ r with
        blockedIPs := mset r.blockedIPs ip record,
        expiryItems := mset r.expiryItems ip { item with expiresAt := expiresAt },
        expiryHeap := heapUpdate r.expiryHeap ip expiresAt }, [])
  | none =>
    let p := r.ensureCapacity now
    let item : IPExpiryItem := { ip := ip, expiresAt := expiresAt }
    ({ blockedIPs := mset p.1.blockedIPs ip record,
       expiryItems := mset p.1.expiryItems ip item,
       expiryHeap := p.1.expiryHeap ++ [item],
       capacity := r.capacity }, p.2)

theorem popExpiredPhase_popSeq (now : Time) (mapLen capacity : Nat)
    (fuel : Nat) (h : List IPExpiryItem) :
    PopSeq h (popExpiredPhase now mapLen capacity fuel h).2
      (popExpiredPhase now mapLen capacity fuel h).1 := by
  induction fuel generalizing h with
  | zero => exact PopSeq.nil h
  | succ n ih =>
    simp only [popExpiredPhase]
    by_cases hcap : mapLen < capacity
    · simp only [if_pos hcap]
      exact PopSeq.nil h
    · simp only [if_neg hcap]
      cases hp : popMin h with
      | none => exact PopSeq.nil h
      | some p =>
        obtain ⟨m, rest⟩ := p
        by_cases hexp : now < m.expiresAt
        · simp only [if_pos hexp]
          exact PopSeq.nil h
        · simp only [if_neg hexp]
          exact PopSeq.cons hp (ih rest)

theorem forceEvictPhase_popSeq (capacity : Nat) (fuel : Nat)
    (st : List (String × BlockedIPRecord) × List (String × IPExpiryItem) ×
      List IPExpiryItem) :
    PopSeq st.2.2 (forceEvictPhase capacity fuel st).2
      (forceEvictPhase capacity fuel st).1.2.2 := by
  induction fuel generalizing st with
  | zero => exact PopSeq.nil _
  | succ n ih =>
    obtain ⟨bm, em, h⟩ := st
    simp only [forceEvictPhase]
    by_cases hcap : bm.length < capacity
    · simp only [if_pos hcap]
      exact PopSeq.nil h
    · simp only [if_neg hcap]
      cases hp : popMin h with
      | none => exact PopSeq.nil h
      | some p =>
        obtain ⟨m, rest⟩ := p
        exact PopSeq.cons hp (ih (mdel bm m.ip, mdel em m.ip, rest))

theorem ensureCapacity_popSeq (r : MemoryIPRecorder) (now : Time) :
    PopSeq r.expiryHeap (r.ensureCapacity now).2
      (r.ensureCapacity now).1.expiryHeap := by
  unfold MemoryIPRecorder.ensureCapacity
  by_cases hcap : r.blockedIPs.length < r.capacity
  · simp only [if_pos hcap]
    exact PopSeq.nil _
  · simp only [if_neg hcap]
    have h1 := popExpiredPhase_popSeq now r.blockedIPs.length r.capacity
      r.expiryHeap.length r.expiryHeap
    have h2 := forceEvictPhase_popSeq r.capacity
      (popExpiredPhase now r.blockedIPs.length r.capacity
        r.expiryHeap.length r.expiryHeap).1.length
      (List.foldl (fun m it => mdel m it.ip) r.blockedIPs
        (popExpiredPhase now r.blockedIPs.length r.capacity
          r.expiryHeap.length r.expiryHeap).2,
       List.foldl (fun m it => mdel m it.ip) r.expiryItems
        (popExpiredPhase now r.blockedIPs.length r.capacity
          r.expiryHeap.length r.expiryHeap).2,
       (popExpiredPhase now r.blockedIPs.length r.capacity
          r.expiryHeap.length r.expiryHeap).1)
    exact PopSeq.append h1 h2

theorem ensureCapacity_minimality (r : MemoryIPRecorder) (now : Time) :
    ((r.ensureCapacity now).2).Pairwise
      (fun a b => a.expiresAt ≤ b.expiresAt) ∧
    (∀ m ∈ (r.ensureCapacity now).2,
      ∀ it ∈ (r.ensureCapacity now).1.expiryHeap,
        m.expiresAt ≤ it.expiresAt) ∧
    r.expiryHeap.Perm ((r.ensureCapacity now).2 ++
      (r.ensureCapacity now).1.expiryHeap) := by
  have hs := ensureCapacity_popSeq r now
  obtain ⟨h1, h2⟩ := hs.pairwise_and_min
  exact ⟨h1, h2, hs.perm⟩

theorem heapUpdate_length (h : List IPExpiryItem) (ip : String) (e : Time) :
    (heapUpdate h ip e).length = h.length := by
  simp [heapUpdate]

theorem heapUpdate_mem_updated {h : List IPExpiryItem} {item : IPExpiryItem}
    {ip : String} (e : Time) (hmem : item ∈ h) (hip : item.ip = ip) :
    (⟨ip, e⟩ : IPExpiryItem) ∈ heapUpdate h ip e := by
  unfold heapUpdate
  refine List.mem_map.mpr ⟨item, hmem, ?_⟩
  simp [hip]

/-- C8: re-banning an IP that already has a heap entry replaces its stored
record (new reason and expiry) and repositions the existing heap entry in
place, evicting nothing and leaving the record count, the heap length and the
expiry-item map size unchanged. -/
theorem recordBlockedIP_existing_updates_in_place (r : MemoryIPRecorder)
    (now : Time) (ip reason : String) (duration : Nat) (item : IPExpiryItem)
    (hitem : mget r.expiryItems ip = some item)
    (hb : (mget r.blockedIPs ip).isSome)
    (hmem : item ∈ r.expiryHeap) (hip : item.ip = ip) :
    (r.RecordBlockedIP now ip reason duration).2 = [] ∧
    mget (r.RecordBlockedIP now ip reason duration).1.blockedIPs ip =
      some { ip := ip, reason := reason, blockedAt := now,
             blockedUntil := now + duration } ∧
    (r.RecordBlockedIP now ip reason duration).1.blockedIPs.length =
      r.blockedIPs.length ∧
    (r.RecordBlockedIP now ip reason duration).1.expiryItems.length =
      r.expiryItems.length ∧
    (r.RecordBlockedIP now ip reason duration).1.expiryHeap.length =
      r.expiryHeap.length ∧
    (⟨ip, now + duration⟩ : IPExpiryItem) ∈
      (r.RecordBlockedIP now ip reason duration).1.expiryHeap := by
  unfold MemoryIPRecorder.RecordBlockedIP
  rw [hitem]
  refine ⟨rfl, ?_, ?_, ?_, ?_, ?_⟩
  · exact mget_mset_self _ _ _
  · exact mset_length_present _ _ _ hb
  · exact mset_length_present _ _ _ (by simp [hitem])
  · exact heapUpdate_length _ _ _
  · exact heapUpdate_mem_updated _ hmem hip

/-- Closed instance of `recordBlockedIP_existing_updates_in_place`. -/
theorem recordBlockedIP_existing_updates_in_place_witness :
    let item : IPExpiryItem := { ip := "10.0.0.1", expiresAt := 60 }
    let r : MemoryIPRecorder :=
      { blockedIPs := [("10.0.0.1",
          { ip := "10.0.0.1", reason := "scan", blockedAt := 10,
            blockedUntil := 60 })],
        expiryItems := [("10.0.0.1", item)],
        expiryHeap := [item],
        capacity := 2 }
    (r.RecordBlockedIP 40 "10.0.0.1" "bruteforce" 100).2 = [] ∧
    mget (r.RecordBlockedIP 40 "10.0.0.1" "bruteforce" 100).1.blockedIPs
      "10.0.0.1" =
      some { ip := "10.0.0.1", reason := "bruteforce", blockedAt := 40,
             blockedUntil := 140 } ∧
    (r.RecordBlockedIP 40 "10.0.0.1" "bruteforce" 100).1.blockedIPs.length =
      r.blockedIPs.length := by
  intro item r
  have h := recordBlockedIP_existing_updates_in_place r 40 "10.0.0.1"
    "bruteforce" 100 item (by decide) (by decide) (by decide) (by decide)
  exact ⟨h.1, h.2.1, h.2.2.1⟩

theorem mget_mdel_ne {β : Type} (m : List (String × β)) (k k' : String)
    (hne : k' ≠ k) : mget (mdel m k) k' = mget m k' := by
  induction m with
  | nil => simp [mdel]
  | cons hd tl ih =>
    obtain ⟨k0, v0⟩ := hd
    by_cases hk : k0 = k
    · subst hk
      have hne' : k0 ≠ k' := fun h => hne h.symm
      simp [mdel, mget, hne']
    · by_cases hk' : k0 = k'
      · subst hk'
        simp [mdel, mget, hk]
      · simp [mdel, mget, hk, hk', ih]

theorem foldl_mdel_length {β : Type} (ps : List IPExpiryItem)
    (bm : List (String × β))
    (hnd : (ps.map IPExpiryItem.ip).Nodup)
    (hpres : ∀ it ∈ ps, (mget bm it.ip).isSome) :
    (ps.foldl (fun m it => mdel m it.ip) bm).length + ps.length = bm.length := by
  induction ps generalizing bm with
  | nil => simp
  | cons p ps ih =>
    simp only [List.map_cons, List.nodup_cons] at hnd
    obtain ⟨hnp, hnd'⟩ := hnd
    have hp : (mget bm p.ip).isSome := hpres p (List.mem_cons_self _ _)
    have hlen := mdel_length_present bm p.ip hp
    have hpres' : ∀ it ∈ ps, (mget (mdel bm p.ip) it.ip).isSome := by
      intro it hit
      rw [mget_mdel_ne]
      · exact hpres it (List.mem_cons_of_mem _ hit)
      · intro heq
        exact hnp (List.mem_map.mpr ⟨it, hit, heq⟩)
    have := ih (mdel bm p.ip) hnd' hpres'
    simp only [List.foldl_cons, List.length_cons]
    omega

theorem forceEvictPhase_below_cap (capacity fuel : Nat)
    (st : List (String × BlockedIPRecord) × List (String × IPExpiryItem) ×
      List IPExpiryItem) (h : st.1.length < capacity) :
    (forceEvictPhase capacity fuel st).2 = [] := by
  obtain ⟨bm, em, hp⟩ := st
  cases fuel with
  | zero => rfl
  | succ n => simp only [forceEvictPhase, if_pos h]

theorem forceEvictPhase_at_most_one (capacity fuel : Nat)
    (bm : List (String × BlockedIPRecord))
    (em : List (String × IPExpiryItem)) (h : List IPExpiryItem)
    (hcap : bm.length ≤ capacity)
    (hpres : ∀ it ∈ h, (mget bm it.ip).isSome) :
    (forceEvictPhase capacity fuel (bm, em, h)).2.length ≤ 1 := by
  cases fuel with
  | zero => simp [forceEvictPhase]
  | succ n =>
    simp only [forceEvictPhase]
    by_cases hlt : bm.length < capacity
    · simp [if_pos hlt]
    · simp only [if_neg hlt]
      cases hp : popMin h with
      | none => simp
      | some p =>
        obtain ⟨m, rest⟩ := p
        have hmem : m ∈ h := (popMin_perm hp).mem_iff.mpr (List.mem_cons_self _ _)
        have hps : (mget bm m.ip).isSome := hpres m hmem
        have hdel := mdel_length_present bm m.ip hps
        have hbelow : (mdel bm m.ip).length < capacity := by omega
        have hrec := forceEvictPhase_below_cap capacity n
          (mdel bm m.ip, mdel em m.ip, rest) hbelow
        simp [hrec]

theorem popExpiredPhase_all_expired (now : Time) (mapLen capacity : Nat)
    (fuel : Nat) (h : List IPExpiryItem) :
    ∀ m ∈ (popExpiredPhase now mapLen capacity fuel h).2, m.expiresAt ≤ now := by
  induction fuel generalizing h with
  | zero => simp [popExpiredPhase]
  | succ n ih =>
    simp only [popExpiredPhase]
    by_cases hcap : mapLen < capacity
    · simp [if_pos hcap]
    · simp only [if_neg hcap]
      cases hp : popMin h with
      | none => simp
      | some p =>
        obtain ⟨m, rest⟩ := p
        by_cases hexp : now < m.expiresAt
        · simp [if_pos hexp]
        · simp only [if_neg hexp]
          intro x hx
          rcases List.mem_cons.mp hx with hx | hx
          · subst hx
            exact Nat.le_of_not_lt hexp
          · exact ih rest x hx

theorem foldl_mdel_mget_not_mem {β : Type} (ps : List IPExpiryItem)
    (bm : List (String × β)) (k : String)
    (hk : k ∉ ps.map IPExpiryItem.ip) :
    mget (ps.foldl (fun m it => mdel m it.ip) bm) k = mget bm k := by
  induction ps generalizing bm with
  | nil => rfl
  | cons p ps ih =>
    simp only [List.map_cons, List.mem_cons] at hk
    push_neg at hk
    simp only [List.foldl_cons]
    rw [ih (mdel bm p.ip) hk.2, mget_mdel_ne bm p.ip k hk.1]

theorem ensureCapacity_removed_eq_of_full (r : MemoryIPRecorder) (now : Time)
    (h : ¬ r.blockedIPs.length < r.capacity) :
    (r.ensureCapacity now).2 =
      (popExpiredPhase now r.blockedIPs.length r.capacity
        r.expiryHeap.length r.expiryHeap).2 ++
      (forceEvictPhase r.capacity
        (popExpiredPhase now r.blockedIPs.length r.capacity
          r.expiryHeap.length r.expiryHeap).1.length
        (List.foldl (fun m it => mdel m it.ip) r.blockedIPs
          (popExpiredPhase now r.blockedIPs.length r.capacity
            r.expiryHeap.length r.expiryHeap).2,
         List.foldl (fun m it => mdel m it.ip) r.expiryItems
          (popExpiredPhase now r.blockedIPs.length r.capacity
            r.expiryHeap.length r.expiryHeap).2,
         (popExpiredPhase now r.blockedIPs.length r.capacity
            r.expiryHeap.length r.expiryHeap).1)).2 := by
  unfold MemoryIPRecorder.ensureCapacity
  simp only [if_neg h]

theorem ensureCapacity_unexpired_at_most_one (r : MemoryIPRecorder)
    (now : Time) (hlen : r.blockedIPs.length ≤ r.capacity)
    (hpres : ∀ it ∈ r.expiryHeap, (mget r.blockedIPs it.ip).isSome)
    (hnd : (r.expiryHeap.map IPExpiryItem.ip).Nodup) :
    ((r.ensureCapacity now).2.countP
      (fun m => decide (now < m.expiresAt))) ≤ 1 := by
  by_cases hcap : r.blockedIPs.length < r.capacity
  · unfold MemoryIPRecorder.ensureCapacity
    simp [if_pos hcap]
  · rw [ensureCapacity_removed_eq_of_full r now hcap, List.countP_append]
    have hseq := popExpiredPhase_popSeq now r.blockedIPs.length r.capacity
      r.expiryHeap.length r.expiryHeap
    have hperm := hseq.perm
    have hpermip := hperm.map IPExpiryItem.ip
    rw [List.map_append] at hpermip
    have hndps := (hpermip.nodup_iff).mp hnd
    have hps0 :
        ((popExpiredPhase now r.blockedIPs.length r.capacity
          r.expiryHeap.length r.expiryHeap).2.countP
            (fun m => decide (now < m.expiresAt))) = 0 := by
      rw [List.countP_eq_zero]
      intro a ha
      have := popExpiredPhase_all_expired now r.blockedIPs.length r.capacity
        r.expiryHeap.length r.expiryHeap a ha
      simpa using Nat.not_lt.mpr this
    have hnd1 := hndps
    rw [List.nodup_append] at hnd1
    obtain ⟨hndl, hndr, hdisj2⟩ := hnd1
    have hcap1 :
        (List.foldl (fun m it => mdel m it.ip) r.blockedIPs
          (popExpiredPhase now r.blockedIPs.length r.capacity
            r.expiryHeap.length r.expiryHeap).2).length ≤ r.capacity := by
      have hpresps : ∀ it ∈ (popExpiredPhase now r.blockedIPs.length r.capacity
          r.expiryHeap.length r.expiryHeap).2,
          (mget r.blockedIPs it.ip).isSome := by
        intro it hit
        exact hpres it (hperm.mem_iff.mpr (List.mem_append_left _ hit))
      have := foldl_mdel_length
        (popExpiredPhase now r.blockedIPs.length r.capacity
          r.expiryHeap.length r.expiryHeap).2 r.blockedIPs hndl hpresps
      omega
    have hpres1 : ∀ it ∈ (popExpiredPhase now r.blockedIPs.length r.capacity
        r.expiryHeap.length r.expiryHeap).1,
        (mget (List.foldl (fun m it => mdel m it.ip) r.blockedIPs
          (popExpiredPhase now r.blockedIPs.length r.capacity
            r.expiryHeap.length r.expiryHeap).2) it.ip).isSome := by
      intro it hit
      rw [foldl_mdel_mget_not_mem]
      · exact hpres it (hperm.mem_iff.mpr (List.mem_append_right _ hit))
      · intro hmem
        exact hdisj2 hmem (List.mem_map.mpr ⟨it, hit, rfl⟩)
    have hfs := forceEvictPhase_at_most_one r.capacity
      (popExpiredPhase now r.blockedIPs.length r.capacity
        r.expiryHeap.length r.expiryHeap).1.length
      (List.foldl (fun m it => mdel m it.ip) r.blockedIPs
        (popExpiredPhase now r.blockedIPs.length r.capacity
          r.expiryHeap.length r.expiryHeap).2)
      (List.foldl (fun m it => mdel m it.ip) r.expiryItems
        (popExpiredPhase now r.blockedIPs.length r.capacity
          r.expiryHeap.length r.expiryHeap).2)
      (popExpiredPhase now r.blockedIPs.length r.capacity
        r.expiryHeap.length r.expiryHeap).1 hcap1 hpres1
    have hle := List.countP_le_length
      (p := fun m => decide (now < m.expiresAt))
      (l := (forceEvictPhase r.capacity
        (popExpiredPhase now r.blockedIPs.length r.capacity
          r.expiryHeap.length r.expiryHeap).1.length
        (List.foldl (fun m it => mdel m it.ip) r.blockedIPs
          (popExpiredPhase now r.blockedIPs.length r.capacity
            r.expiryHeap.length r.expiryHeap).2,
         List.foldl (fun m it => mdel m it.ip) r.expiryItems
          (popExpiredPhase now r.blockedIPs.length r.capacity
            r.expiryHeap.length r.expiryHeap).2,
         (popExpiredPhase now r.blockedIPs.length r.capacity
            r.expiryHeap.length r.expiryHeap).1)).2)
    omega

/-- C7: every entry `ensureCapacity` removes to make room is an
earliest-expiring entry among those present at the moment of its removal:
the removal sequence is ascending in expiry, every removed entry expires no
later than every surviving heap entry, and removals plus survivors are a
permutation of the original heap contents; moreover (under the registry
invariants: size within capacity, every heap entry backed by a record, one
heap entry per IP) at most one removed entry is unexpired — expired entries
are discarded first and at most one unexpired entry is forcibly evicted. -/
theorem ensureCapacity_evicts_earliest (r : MemoryIPRecorder) (now : Time) :
    ((r.ensureCapacity now).2).Pairwise
      (fun a b => a.expiresAt ≤ b.expiresAt) ∧
    (∀ m ∈ (r.ensureCapacity now).2,
      ∀ it ∈ (r.ensureCapacity now).1.expiryHeap,
        m.expiresAt ≤ it.expiresAt) ∧
    r.expiryHeap.Perm ((r.ensureCapacity now).2 ++
      (r.ensureCapacity now).1.expiryHeap) ∧
    (r.blockedIPs.length ≤ r.capacity →
      (∀ it ∈ r.expiryHeap, (mget r.blockedIPs it.ip).isSome) →
      (r.expiryHeap.map IPExpiryItem.ip).Nodup →
      ((r.ensureCapacity now).2.countP
        (fun m => decide (now < m.expiresAt))) ≤ 1) := by
  obtain ⟨h1, h2, h3⟩ := ensureCapacity_minimality r now
  exact ⟨h1, h2, h3, fun hlen hpres hnd =>
    ensureCapacity_unexpired_at_most_one r now hlen hpres hnd⟩

/-- Closed instance of `ensureCapacity_evicts_earliest`: a full registry
(capacity 2) holding one expired and one live entry evicts exactly the
expired, earliest-expiring one. -/
theorem ensureCapacity_evicts_earliest_witness :
    let r : MemoryIPRecorder :=
      { blockedIPs :=
          [("198.51.100.1",
            { ip := "198.51.100.1", reason := "scan", blockedAt := 1,
              blockedUntil := 10 }),
           ("198.51.100.2",
            { ip := "198.51.100.2", reason := "flood", blockedAt := 2,
              blockedUntil := 50 })],
        expiryItems :=
          [("198.51.100.1", { ip := "198.51.100.1", expiresAt := 10 }),
           ("198.51.100.2", { ip := "198.51.100.2", expiresAt := 50 })],
        expiryHeap :=
          [{ ip := "198.51.100.1", expiresAt := 10 },
           { ip := "198.51.100.2", expiresAt := 50 }],
        capacity := 2 }
    ((r.ensureCapacity 20).2).Pairwise
      (fun a b => a.expiresAt ≤ b.expiresAt) ∧
    (∀ m ∈ (r.ensureCapacity 20).2,
      ∀ it ∈ (r.ensureCapacity 20).1.expiryHeap,
        m.expiresAt ≤ it.expiresAt) ∧
    r.expiryHeap.Perm ((r.ensureCapacity 20).2 ++
      (r.ensureCapacity 20).1.expiryHeap) ∧
    ((r.ensureCapacity 20).2.countP
      (fun m => decide (20 < m.expiresAt))) ≤ 1 := by
  intro r
  obtain ⟨h1, h2, h3, h4⟩ := ensureCapacity_evicts_earliest r 20
  exact ⟨h1, h2, h3, h4 (by decide) (by decide) (by decide)⟩

/-- Non-blocking send on a buffered Go channel (`select { case ch <- x:
... default: ... }`): the send succeeds exactly when the buffer has room. -/
def chanTrySend {α : Type} (q : List α) (cap : Nat) (x : α) :
    List α × Bool :=
  if q.length < cap then (q ++ [x], true) else (q, false)

/-- `MongoLogStore` (log_store.go): the security-log write-behind persister,
reduced to its bounded inbox (`logChan`, capacity `defaultChannelSize`).
The element type is kept generic: `Store` never inspects the `WAFLog`
record it enqueues. -/
structure MongoLogStore (α : Type) where
  logChan : List α
  channelCap : Nat
deriving Repr

/-- `defaultChannelSize` (log_store.go). -/
def defaultChannelSize : Nat := 1000

/-- `MongoLogStore.Store` (log_store.go): non-blocking push of a log record;
on a full channel the record is dropped and a warning logged; the returned
error is `nil` in both cases.  Result: updated store, whether the
full-channel warning fired, and the returned error. -/
def MongoLogStore.Store {α : Type} (s : MongoLogStore α) (log : α) :
    MongoLogStore α × Bool × Option String :=
  let p := chanTrySend s.logChan s.channelCap log
  if p.2 then ({ s with logChan := p.1 }, false, none)
  else (s, true, none)

/-- `MongoIPRecorder` (ip_record.go): the durable ban recorder, a memory
registry plus the bounded async `writeQueue` (capacity 1000). -/
structure MongoIPRecorder where
  memory : MemoryIPRecorder
  writeQueue : List BlockedIPRecord
  queueCap : Nat
deriving Repr

/-- `MongoIPRecorder.RecordBlockedIP` (ip_record.go): record to memory
first, then push the record to the write queue without blocking; a full
queue drops the record with a warning; the returned error is `nil`
whenever the memory write succeeded (which it always does). -/
def MongoIPRecorder.RecordBlockedIP (r : MongoIPRecorder) (now : Time)
    (ip reason : String) (duration : Nat) :
    MongoIPRecorder × Bool × Option String :=
  let mem := (r.memory.RecordBlockedIP now ip reason duration).1
  let record : BlockedIPRecord :=
    { ip := ip, reason := reason, blockedAt := now,
      blockedUntil := now + duration }
  let p := chanTrySend r.writeQueue r.queueCap record
  if p.2 then
    ({ memory := mem, writeQueue := p.1, queueCap := r.queueCap }, false, none)
  else
    ({ memory := mem, writeQueue := r.writeQueue, queueCap := r.queueCap },
      true, none)

/-- C10: a push to a write-behind persister with a full inbox never
surfaces an error and never blocks the decision path: the incoming record
is dropped, a warning fires, the inbox is unchanged, and — for the ban
recorder — the in-memory registry update has still taken place.  With room
in the inbox the record is enqueued, again with no error.  Holds for both
the security-log store's `Store` and the ban recorder's durability push. -/
theorem persister_full_inbox_drops_newest {α : Type} (s : MongoLogStore α)
    (log : α) (r : MongoIPRecorder) (now : Time) (ip reason : String)
    (duration : Nat) :
    ((s.Store log).2.2 = none) ∧
    (¬ s.logChan.length < s.channelCap →
      (s.Store log).1.logChan = s.logChan ∧ (s.Store log).2.1 = true) ∧
    (s.logChan.length < s.channelCap →
      (s.Store log).1.logChan = s.logChan ++ [log] ∧
      (s.Store log).2.1 = false) ∧
    ((r.RecordBlockedIP now ip reason duration).2.2 = none) ∧
    ((r.RecordBlockedIP now ip reason duration).1.memory =
      (r.memory.RecordBlockedIP now ip reason duration).1) ∧
    (¬ r.writeQueue.length < r.queueCap →
      (r.RecordBlockedIP now ip reason duration).1.writeQueue =
        r.writeQueue ∧
      (r.RecordBlockedIP now ip reason duration).2.1 = true) := by
  refine ⟨?_, fun hfull => ?_, fun hroom => ?_, ?_, ?_, fun hfull => ?_⟩
  · unfold MongoLogStore.Store chanTrySend
    by_cases h : s.logChan.length < s.channelCap <;> simp [h]
  · unfold MongoLogStore.Store chanTrySend
    simp [hfull]
  · unfold MongoLogStore.Store chanTrySend
    simp [hroom]
  · unfold MongoIPRecorder.RecordBlockedIP chanTrySend
    by_cases h : r.writeQueue.length < r.queueCap <;> simp [h]
  · unfold MongoIPRecorder.RecordBlockedIP chanTrySend
    by_cases h : r.writeQueue.length < r.queueCap <;> simp [h]
  · unfold MongoIPRecorder.RecordBlockedIP chanTrySend
    simp [hfull]

/-- Closed instance of `persister_full_inbox_drops_newest` with both
inboxes full at capacity 1. -/
theorem persister_full_inbox_drops_newest_witness :
    let s : MongoLogStore Nat := { logChan := [7], channelCap := 1 }
    let mem : MemoryIPRecorder :=
      { blockedIPs := [], expiryItems := [], expiryHeap := [],
        capacity := 10000 }
    let rec0 : BlockedIPRecord :=
      { ip := "10.9.9.9", reason := "x", blockedAt := 0, blockedUntil := 9 }
    let r : MongoIPRecorder :=
      { memory := mem, writeQueue := [rec0], queueCap := 1 }
    ((s.Store 3).2.2 = none) ∧
    ((s.Store 3).1.logChan = [7]) ∧ ((s.Store 3).2.1 = true) ∧
    ((r.RecordBlockedIP 5 "10.0.0.5" "flood" 60).2.2 = none) ∧
    ((r.RecordBlockedIP 5 "10.0.0.5" "flood" 60).1.memory =
      (mem.RecordBlockedIP 5 "10.0.0.5" "flood" 60).1) ∧
    ((r.RecordBlockedIP 5 "10.0.0.5" "flood" 60).1.writeQueue = [rec0]) ∧
    ((r.RecordBlockedIP 5 "10.0.0.5" "flood" 60).2.1 = true) := by
  intro s mem rec0 r
  have h := persister_full_inbox_drops_newest s 3 r 5 "10.0.0.5" "flood" 60
  have hfull : ¬ s.logChan.length < s.channelCap := by decide
  have hfull2 : ¬ r.writeQueue.length < r.queueCap := by decide
  exact ⟨h.1, (h.2.1 hfull).1, (h.2.1 hfull).2, h.2.2.2.1, h.2.2.2.2.1,
    (h.2.2.2.2.2 hfull2).1, (h.2.2.2.2.2 hfull2).2⟩

/-- The ASCII whitespace set trimmed by Go's `strings.TrimSpace`
(`' '`, `'\t'`, `'\n'`, `'\v'`, `'\f'`, `'\r'`); the inputs handled here
are ASCII, where Go's Unicode trimming coincides with this set. -/
def isGoSpace (c : Char) : Bool :=
  c = ' ' ∨ c = '\t' ∨ c = '\n' ∨ c = Char.ofNat 11 ∨ c = Char.ofNat 12 ∨
    c = '\r'

/-- `strings.TrimSpace` on a character list. -/
def trimSpaceL (l : List Char) : List Char :=
  ((l.dropWhile isGoSpace).reverse.dropWhile isGoSpace).reverse

/-- `bufio.ScanLines` token boundaries: split at `'\n'`, no empty final
token after a trailing newline, empty input yields no tokens. -/
def scanLines : List Char → List (List Char)
  | [] => []
  | c :: cs =>
    if c = '\n' then [] :: scanLines cs
    else
      match scanLines cs with
      | [] => [[c]]
      | l :: ls => (c :: l) :: ls

/-- `bufio.ScanLines` also drops one carriage return at the end of a line. -/
def dropCR (l : List Char) : List Char :=
  match l.reverse with
  | '\r' :: rest => rest.reverse
  | _ => l

/-- The lines a `bufio.Scanner` yields over a raw header block. -/
def headerLines (headers : String) : List (List Char) :=
  (scanLines headers.data).map dropCR

/-- `bytes.SplitN(l, sep, 2)`: split at the first occurrence of `sep`;
`none` when `sep` does not occur (Go then returns a 1-element slice). -/
def splitFirstChar (sep : Char) : List Char → Option (List Char × List Char)
  | [] => none
  | c :: cs =>
    if c = sep then some ([], cs)
    else (splitFirstChar sep cs).map fun p => (c :: p.1, p.2)

/-- `strings.Split` on a one-character separator. -/
def splitChar (sep : Char) : List Char → List (List Char)
  | [] => [[]]
  | c :: cs =>
    if c = sep then [] :: splitChar sep cs
    else
      match splitChar sep cs with
      | [] => [[c]]
      | l :: ls => (c :: l) :: ls

/-- `strings.EqualFold` restricted to ASCII, where Go's simple Unicode
folding coincides with lowercase comparison. -/
def asciiEqualFold (a b : List Char) : Bool :=
  a.map Char.toLower == b.map Char.toLower

/-- `strings.Trim(s, "\"")`: strip all leading and trailing double quotes. -/
def trimDQuote (l : List Char) : List Char :=
  ((l.dropWhile (· = '"')).reverse.dropWhile (· = '"')).reverse

/-- The IPv6 bracket strip in `getRealClientIP` (application.go): drop one
leading `[` and one trailing `]` when both are present. -/
def stripBrackets (l : List Char) : List Char :=
  match l with
  | '[' :: rest =>
    (match rest.reverse with
     | ']' :: mid => mid.reverse
     | _ => l)
  | _ => l

/-- Loop body of `getHeaderValue` (application.go) over scanned lines. -/
def getHeaderValueGo (target : List Char) :
    List (List Char) → String
  | [] => ""
  | line :: rest =>
    let t := trimSpaceL line
    if t.isEmpty then getHeaderValueGo target rest
    else
      match splitFirstChar ':' t with
      | none => getHeaderValueGo target rest
      | some (k, v) =>
        if asciiEqualFold (trimSpaceL k) target then String.mk (trimSpaceL v)
        else getHeaderValueGo target rest

/-- `getHeaderValue` (application.go): first value whose key matches the
target header case-insensitively; `""` when absent (the function's error
result is always `nil`). -/
def getHeaderValue (headers : String) (target : String) : String :=
  getHeaderValueGo target.data (headerLines headers)

/-- `readHeaders` (application.go) as a parser: trimmed nonempty lines must
contain a colon (else a hard parse error, `none`); each yields a trimmed
key/value pair fed to the engine in order. -/
def readHeadersGo : List (List Char) → Option (List (String × String))
  | [] => some []
  | line :: rest =>
    let t := trimSpaceL line
    if t.isEmpty then readHeadersGo rest
    else
      match splitFirstChar ':' t with
      | none => none
      | some (k, v) =>
        (readHeadersGo rest).map
          fun l => (String.mk (trimSpaceL k), String.mk (trimSpaceL v)) :: l

/-- `readHeaders` (application.go) on a raw header block. -/
def readHeadersE (headers : String) : Option (List (String × String)) :=
  readHeadersGo (headerLines headers)

/-- The prioritized forwarding-header list of `getRealClientIP`
(application.go). -/
def clientIPHeaders : List String :=
  ["x-forwarded-for", "x-real-ip", "true-client-ip", "cf-connecting-ip",
   "fastly-client-ip", "x-client-ip", "x-original-forwarded-for",
   "forwarded", "x-cluster-client-ip"]

/-- Chained-list branch of `getRealClientIP` (application.go): first
element of the comma-separated chain, whitespace-trimmed; empty means keep
searching. -/
def firstChainIP (value : String) : Option String :=
  match splitChar ',' value.data with
  | [] => none
  | ip0 :: _ =>
    let ip := trimSpaceL ip0
    if ip.isEmpty then none else some (String.mk ip)

/-- `Forwarded`-header branch of `getRealClientIP` (application.go): scan
the `;`-separated parts for `for=`, strip quotes and IPv6 brackets. -/
def forwardedParts : List (List Char) → Option String
  | [] => none
  | part :: rest =>
    match splitFirstChar '=' part with
    | none => forwardedParts rest
    | some (k, v) =>
      if trimSpaceL k = [ 'f', 'o', 'r' ] then
        let ip := stripBrackets (trimDQuote (trimSpaceL v))
        if ip.isEmpty then forwardedParts rest else some (String.mk ip)
      else forwardedParts rest

/-- Dispatch of one header in `getRealClientIP` (application.go). -/
def extractIPFromHeader (name value : String) : Option String :=
  if name = "x-forwarded-for" ∨ name = "x-original-forwarded-for" then
    firstChainIP value
  else if name = "forwarded" then
    forwardedParts (splitChar ';' value.data)
  else
    let ip := trimSpaceL value.data
    if ip.isEmpty then none else some (String.mk ip)

/-- Header-priority loop of `getRealClientIP` (application.go). -/
def realClientIPGo (headers : String) : List String → Option String
  | [] => none
  | name :: rest =>
    let v := getHeaderValue headers name
    if v = "" then realClientIPGo headers rest
    else
      match extractIPFromHeader name v with
      | some ip => some ip
      | none => realClientIPGo headers rest

/-- `applicationRequest` (application.go).  `netip.Addr` values are
modelled as `Option String` (`none` for the invalid zero address, `some s`
for a valid address rendering as `s`); `[]byte` fields that the code
distinguishes from `nil` are `Option String`. -/
structure ApplicationRequest where
  srcIp : Option String
  srcPort : Int
  dstIp : Option String
  dstPort : Int
  method : String
  id : String
  path : String
  query : Option String
  version : String
  headers : String
  body : String
deriving Repr, DecidableEq

/-- `getRealClientIP` (application.go): first IP recovered from the
prioritized forwarding headers, else the transport-level source address
when valid, else `""`. -/
def getRealClientIP (req : ApplicationRequest) : String :=
  match realClientIPGo req.headers clientIPHeaders with
  | some ip => ip
  | none =>
    match req.srcIp with
    | some s => s
    | none => ""

theorem realClientIPGo_none_of_all_empty (headers : String)
    (l : List String) (h : ∀ name ∈ l, getHeaderValue headers name = "") :
    realClientIPGo headers l = none := by
  induction l with
  | nil => rfl
  | cons name rest ih =>
    have hname := h name (List.mem_cons_self _ _)
    simp only [realClientIPGo, hname, if_pos]
    exact ih fun n hn => h n (List.mem_cons_of_mem _ hn)

/-- C5: client-IP derivation. (1) With header block
`X-Forwarded-For: 203.0.113.7, 10.0.0.1` the derived client IP is
`203.0.113.7` (first chain element, trimmed). (2) With header block
`Forwarded: for="[2001:db8::1]";proto=https` the derived client IP is
`2001:db8::1` (quotes and IPv6 brackets stripped). (3) When every
forwarding header of the priority list is absent, the derived client IP is
the transport-level source address. -/
theorem getRealClientIP_spec :
    (∀ req : ApplicationRequest,
      req.headers = "X-Forwarded-For: 203.0.113.7, 10.0.0.1" →
      getRealClientIP req = "203.0.113.7") ∧
    (∀ req : ApplicationRequest,
      req.headers = "Forwarded: for=\"[2001:db8::1]\";proto=https" →
      getRealClientIP req = "2001:db8::1") ∧
    (∀ (req : ApplicationRequest) (src : String),
      (∀ name ∈ clientIPHeaders, getHeaderValue req.headers name = "") →
      req.srcIp = some src →
      getRealClientIP req = src) := by
  refine ⟨fun req hh => ?_, fun req hh => ?_, fun req src hempty hsrc => ?_⟩
  · unfold getRealClientIP
    rw [hh]
    have : realClientIPGo "X-Forwarded-For: 203.0.113.7, 10.0.0.1"
        clientIPHeaders = some "203.0.113.7" := by decide
    rw [this]
  · unfold getRealClientIP
    rw [hh]
    have : realClientIPGo "Forwarded: for=\"[2001:db8::1]\";proto=https"
        clientIPHeaders = some "2001:db8::1" := by decide
    rw [this]
  · unfold getRealClientIP
    rw [realClientIPGo_none_of_all_empty req.headers clientIPHeaders hempty,
      hsrc]

/-- Closed instance of `getRealClientIP_spec` on three concrete requests. -/
theorem getRealClientIP_spec_witness :
    let base : ApplicationRequest :=
      { srcIp := some "192.0.2.1", srcPort := 1,
        dstIp := some "198.51.100.2", dstPort := 80, method := "GET",
        id := "T1", path := "/a", query := none, version := "1.1",
        headers := "X-Forwarded-For: 203.0.113.7, 10.0.0.1", body := "" }
    getRealClientIP base = "203.0.113.7" ∧
    getRealClientIP
      { base with
          headers := "Forwarded: for=\"[2001:db8::1]\";proto=https" } =
      "2001:db8::1" ∧
    getRealClientIP
      { base with headers := "", srcIp := some "198.51.100.9" } =
      "198.51.100.9" := by
  intro base
  obtain ⟨h1, h2, h3⟩ := getRealClientIP_spec
  refine ⟨h1 base rfl, h2 _ rfl, h3 _ "198.51.100.9" ?_ rfl⟩
  decide

/-- `types.Interruption` (coraza collaborator): the deny decision carried
by `ErrInterrupted`. -/
structure Interruption where
  ruleID : Int
  action : String
  status : Int
  data : String
deriving Repr, DecidableEq

/-- The micro rule-engine's matched rule, as used by `HandleRequest`
(application.go): only its name and rendered ID are consumed. -/
structure MicroRule where
  id : String
  name : String
deriving Repr, DecidableEq

/-- Outcome of a request- or response-phase handler: success, an explicit
deny (`ErrInterrupted`), or any other error. -/
inductive HandleResult
  | ok
  | errInterrupted (it : Interruption)
  | errOther (msg : String)
deriving Repr, DecidableEq

/-- Observable side effects of the handlers, in program order. -/
inductive Event
  | flowCheck (ip : String)
  | ruleEval (ip url path : String)
  | recordAttack (ip : String)
  | recordError (ip : String)
  | microLogSave
  | firewallLogSave
  | txOpen (id : String)
  | setRespId (id : String)
  | cacheSet (id : String)
  | txLogged (id : String)
  | txClosed (id : String)
  | txMiss (id : String)
deriving Repr, DecidableEq

/-- Behaviour of the matching-engine transaction opened by `HandleRequest`
(coraza is an external collaborator; its per-call results are oracle
fields): whether the rule engine is off, the interruption or error each
feeding step reports, and the interrupted/matched state read at
finalization. -/
structure WafTxOracle where
  ruleEngineOff : Bool
  reqHeadersIt : Option Interruption
  writeReqBodyErr : Bool
  writeReqBodyIt : Option Interruption
  procReqBodyErr : Bool
  procReqBodyIt : Option Interruption
  interrupted : Bool
  matchedRulesNonempty : Bool
deriving Repr, DecidableEq

/-- Configuration and collaborator oracles of `Application.HandleRequest`
(application.go): which optional collaborators are wired
(`a.ipRecorder != nil` etc.), the flow-control and rule-engine answers for
this request, the generated ID used when the caller supplied none, the
time formatter (Go `time.Time.Format(time.RFC3339)`), and the matching
engine oracle. -/
structure AppEnv where
  responseCheck : Bool
  hasIPRecorder : Bool
  recorder : MemoryIPRecorder
  now : Time
  hasFlowController : Bool
  checkVisitErr : Bool
  checkVisitAllowed : Bool
  hasRuleEngine : Bool
  ruleShouldBlock : Bool
  ruleMatched : Option MicroRule
  ruleMatchErr : Bool
  hasLogStore : Bool
  setIdErr : Bool
  genId : String
  formatTime : Time → String
  waf : WafTxOracle

/-- ID fill-in of `HandleRequest` (application.go): an absent caller ID is
replaced by a generated 16-character one (the generator is the `genId`
oracle). -/
def fillId (genId : String) (req : ApplicationRequest) : ApplicationRequest :=
  if req.id = "" then { req with id := genId } else req

/-- Body of `HandleRequest` after `NewTransactionWithID` (application.go):
write the transaction ID into the response metadata (an error aborts),
`IsRuleEngineOff` short-circuits as a pass-through, then headers are parsed
and fed, then the body is written and processed, each step able to abort
with an error or an interruption. -/
def requestCore (env : AppEnv) (req : ApplicationRequest) :
    HandleResult × List Event :=
  if env.setIdErr then (.errOther "failed to set response transaction id", [])
  else
    let evs := [Event.setRespId req.id]
    if env.waf.ruleEngineOff then (.ok, evs)
    else
      match readHeadersE req.headers with
      | none => (.errOther "reading headers", evs)
      | some _ =>
        match env.waf.reqHeadersIt with
        | some it => (.errInterrupted it, evs)
        | none =>
          if env.waf.writeReqBodyErr then
            (.errOther "write request body error", evs)
          else
            match env.waf.writeReqBodyIt with
            | some it => (.errInterrupted it, evs)
            | none =>
              if env.waf.procReqBodyErr then
                (.errOther "process request body error", evs)
              else
                match env.waf.procReqBodyIt with
                | some it => (.errInterrupted it, evs)
                | none => (.ok, evs)

/-- Transaction stage of `HandleRequest` (application.go): open the
matching-engine transaction, run `requestCore`, then the deferred
finalize-or-defer branch: on success with response inspection enabled the
transaction is cached (not finalized); otherwise attack recording and
security-log synthesis happen if the transaction was interrupted, and the
logging hook and resource release always run. -/
def handleRequestTx (env : AppEnv) (req : ApplicationRequest)
    (realIP : String) (evs : List Event) : HandleResult × List Event :=
  let evs := evs ++ [Event.txOpen req.id]
  let core := requestCore env req
  if core.1 = .ok ∧ env.responseCheck then
    (core.1, evs ++ core.2 ++ [Event.cacheSet req.id])
  else
    let finEvs :=
      (if env.waf.interrupted ∧ env.hasLogStore then
        (if env.hasFlowController then [Event.recordAttack realIP] else []) ++
        (if env.waf.matchedRulesNonempty then [Event.firewallLogSave]
         else [])
      else []) ++ [Event.txLogged req.id, Event.txClosed req.id]
    (core.1, evs ++ core.2 ++ finEvs)

/-- Micro rule-engine stage of `HandleRequest` (application.go): when
configured, match against the assembled URL and path; on a block with no
match error, record an attack, persist a micro-engine log entry and deny
with status 403; a match error is logged and processing continues. -/
def handleRequestRule (env : AppEnv) (req : ApplicationRequest)
    (realIP : String) (evs : List Event) : HandleResult × List Event :=
  if env.hasRuleEngine then
    let path := req.path
    let url :=
      match req.query with
      | some q => if q.isEmpty then path else path ++ "?" ++ q
      | none => path
    let evs := evs ++ [Event.ruleEval realIP url path]
    if env.ruleShouldBlock ∧ ¬ env.ruleMatchErr then
      let evs := evs ++
        (if env.hasFlowController then [Event.recordAttack realIP] else []) ++
        [Event.microLogSave]
      (.errInterrupted
        { ruleID := 0, action := "deny", status := 403, data := "" }, evs)
    else handleRequestTx env req realIP evs
  else handleRequestTx env req realIP evs

/-- Flow-control stage of `HandleRequest` (application.go): when
configured, `CheckVisit`; an error is logged and treated as allow
(fail-open); a disallow denies with status 429. -/
def handleRequestFlow (env : AppEnv) (req : ApplicationRequest)
    (realIP : String) : HandleResult × List Event :=
  if env.hasFlowController then
    let evs := [Event.flowCheck realIP]
    if env.checkVisitErr then handleRequestRule env req realIP evs
    else if ¬ env.checkVisitAllowed then
      (.errInterrupted
        { ruleID := 0, action := "deny", status := 429,
          data := "Too many requests" }, evs)
    else handleRequestRule env req realIP evs
  else handleRequestRule env req realIP []

/-- `Application.HandleRequest` (application.go), after the wire-protocol
KV parse: fill in the transaction ID, derive the client IP, and run the
ban check, flow-control check, micro rule engine and matching-engine
stages in order, each able to short-circuit with a deny. -/
def handleRequest (env : AppEnv) (req0 : ApplicationRequest) :
    HandleResult × List Event :=
  let req := fillId env.genId req0
  let realIP := getRealClientIP req
  if env.hasIPRecorder then
    let p := env.recorder.IsIPBlocked env.now realIP
    if p.1 then
      match p.2 with
      | some record =>
        (.errInterrupted
          { ruleID := 0, action := "deny", status := 403,
            data := "IP has been blocked until " ++
              env.formatTime record.blockedUntil ++ " due to " ++
              record.reason }, [])
      | none => (.errOther "blocked without record", [])
    else handleRequestFlow env req realIP
  else handleRequestFlow env req realIP

/-- C3: a request whose derived client IP has an active ban record is
denied with status 403, the deny message containing the RFC3339-formatted
expiry and the ban reason, and nothing further happens: no flow-control
check, no rule-engine evaluation and no matching-engine transaction — the
handler's event trace is empty. -/
theorem handleRequest_banned_denies (env : AppEnv) (req : ApplicationRequest)
    (record : BlockedIPRecord)
    (hrec : env.hasIPRecorder = true)
    (hblocked : env.recorder.IsIPBlocked env.now
      (getRealClientIP (fillId env.genId req)) = (true, some record)) :
    handleRequest env req =
      (.errInterrupted
        { ruleID := 0, action := "deny", status := 403,
          data := "IP has been blocked until " ++
            env.formatTime record.blockedUntil ++ " due to " ++
            record.reason }, []) ∧
    (∃ pre post,
      "IP has been blocked until " ++ env.formatTime record.blockedUntil ++
          " due to " ++ record.reason =
        pre ++ (env.formatTime record.blockedUntil ++ post)) ∧
    (∃ pre post,
      "IP has been blocked until " ++ env.formatTime record.blockedUntil ++
          " due to " ++ record.reason =
        pre ++ (record.reason ++ post)) ∧
    (∀ ip, Event.flowCheck ip ∉ (handleRequest env req).2) ∧
    (∀ ip url path, Event.ruleEval ip url path ∉ (handleRequest env req).2) ∧
    (∀ id, Event.txOpen id ∉ (handleRequest env req).2) := by
  have hmain : handleRequest env req =
      (.errInterrupted
        { ruleID := 0, action := "deny", status := 403,
          data := "IP has been blocked until " ++
            env.formatTime record.blockedUntil ++ " due to " ++
            record.reason }, []) := by
    unfold handleRequest
    simp only [hrec, if_true, hblocked]
  refine ⟨hmain,
    ⟨"IP has been blocked until ", " due to " ++ record.reason, ?_⟩,
    ⟨"IP has been blocked until " ++ env.formatTime record.blockedUntil ++
      " due to ", "", ?_⟩, ?_, ?_, ?_⟩
  · simp [String.append_assoc]
  · simp [String.append_assoc]
  · intro ip
    rw [hmain]
    simp
  · intro ip url path
    rw [hmain]
    simp
  · intro i
    rw [hmain]
    simp

/-- Closed instance of `handleRequest_banned_denies`: a request from IP
`203.0.113.7` under an active `"bruteforce"` ban. -/
theorem handleRequest_banned_denies_witness :
    let record : BlockedIPRecord :=
      { ip := "203.0.113.7", reason := "bruteforce", blockedAt := 5,
        blockedUntil := 100 }
    let env : AppEnv :=
      { responseCheck := true, hasIPRecorder := true,
        recorder :=
          { blockedIPs := [("203.0.113.7", record)],
            expiryItems :=
              [("203.0.113.7", { ip := "203.0.113.7", expiresAt := 100 })],
            expiryHeap := [{ ip := "203.0.113.7", expiresAt := 100 }],
            capacity := 10000 },
        now := 50, hasFlowController := true, checkVisitErr := false,
        checkVisitAllowed := true, hasRuleEngine := true,
        ruleShouldBlock := false, ruleMatched := none, ruleMatchErr := false,
        hasLogStore := true, setIdErr := false, genId := "GENERATEDIDABCD",
        formatTime := fun t => toString t,
        waf :=
          { ruleEngineOff := false, reqHeadersIt := none,
            writeReqBodyErr := false, writeReqBodyIt := none,
            procReqBodyErr := false, procReqBodyIt := none,
            interrupted := false, matchedRulesNonempty := false } }
    let req : ApplicationRequest :=
      { srcIp := some "203.0.113.7", srcPort := 4242,
        dstIp := some "198.51.100.2", dstPort := 80, method := "GET",
        id := "REQ1", path := "/login", query := none, version := "1.1",
        headers := "", body := "" }
    handleRequest env req =
      (.errInterrupted
        { ruleID := 0, action := "deny", status := 403,
          data := "IP has been blocked until 100 due to bruteforce" },
        []) := by
  intro record env req
  have h := handleRequest_banned_denies env req record rfl (by decide)
  exact h.1.trans (by decide)

theorem requestCore_events (env : AppEnv) (req : ApplicationRequest) :
    (requestCore env req).2 =
      if env.setIdErr then [] else [Event.setRespId req.id] := by
  unfold requestCore
  by_cases h : env.setIdErr
  · simp [h]
  · simp only [if_neg h, if_pos]
    by_cases h2 : env.waf.ruleEngineOff
    · simp [h2]
    · simp only [if_neg h2]
      cases readHeadersE req.headers with
      | none => rfl
      | some l =>
        cases env.waf.reqHeadersIt with
        | some it => rfl
        | none =>
          by_cases h3 : env.waf.writeReqBodyErr
          · simp [h3]
          · simp only [if_neg h3]
            cases env.waf.writeReqBodyIt with
            | some it => rfl
            | none =>
              by_cases h4 : env.waf.procReqBodyErr
              · simp [h4]
              · simp only [if_neg h4]
                cases env.waf.procReqBodyIt with
                | some it => rfl
                | none => rfl

theorem handleRequestTx_txOpen_mem (env : AppEnv) (req : ApplicationRequest)
    (realIP : String) (evs : List Event) :
    Event.txOpen req.id ∈ (handleRequestTx env req realIP evs).2 := by
  unfold handleRequestTx
  by_cases h : (requestCore env req).1 = .ok ∧ env.responseCheck
  · simp [h]
  · simp [h]

theorem handleRequestTx_setRespId_iff (env : AppEnv)
    (req : ApplicationRequest) (realIP : String) (evs : List Event)
    (h : Event.setRespId req.id ∉ evs) :
    (Event.setRespId req.id ∈ (handleRequestTx env req realIP evs).2) ↔
      env.setIdErr = false := by
  unfold handleRequestTx
  have hce := requestCore_events env req
  by_cases hok : (requestCore env req).1 = .ok ∧ env.responseCheck
  · by_cases hsi : env.setIdErr <;> simp [hok, hce, hsi, h]
  · by_cases hsi : env.setIdErr <;> simp [hok, hce, hsi, h]

theorem handleRequestRule_setRespId_iff (env : AppEnv)
    (req : ApplicationRequest) (realIP : String) (evs : List Event)
    (h1 : Event.setRespId req.id ∉ evs)
    (h2 : Event.txOpen req.id ∉ evs) :
    (Event.setRespId req.id ∈ (handleRequestRule env req realIP evs).2) ↔
      (Event.txOpen req.id ∈ (handleRequestRule env req realIP evs).2 ∧
        env.setIdErr = false) := by
  unfold handleRequestRule
  by_cases hre : env.hasRuleEngine
  · rw [if_pos hre]
    by_cases hblock : env.ruleShouldBlock = true ∧ ¬ env.ruleMatchErr = true
    · rw [if_pos hblock]
      simp [h1, h2]
    · rw [if_neg hblock]
      rw [handleRequestTx_setRespId_iff]
      · simp [handleRequestTx_txOpen_mem]
      · simp [h1]
  · rw [if_neg hre]
    rw [handleRequestTx_setRespId_iff _ _ _ _ h1]
    simp [handleRequestTx_txOpen_mem]

theorem handleRequestFlow_setRespId_iff (env : AppEnv)
    (req : ApplicationRequest) (realIP : String) :
    (Event.setRespId req.id ∈ (handleRequestFlow env req realIP).2) ↔
      (Event.txOpen req.id ∈ (handleRequestFlow env req realIP).2 ∧
        env.setIdErr = false) := by
  unfold handleRequestFlow
  by_cases hfc : env.hasFlowController
  · rw [if_pos hfc]
    by_cases herr : env.checkVisitErr = true
    · rw [if_pos herr]
      exact handleRequestRule_setRespId_iff env req realIP _
        (by simp) (by simp)
    · rw [if_neg herr]
      by_cases hallow : env.checkVisitAllowed = true
      · rw [if_neg (by simp [hallow])]
        exact handleRequestRule_setRespId_iff env req realIP _
          (by simp) (by simp)
      · rw [if_pos (by simp [hallow])]
        simp
  · rw [if_neg hfc]
    exact handleRequestRule_setRespId_iff env req realIP []
      (by simp) (by simp)

/-- C4 (amended): the transaction ID is echoed into the response metadata
exactly when processing reaches the matching-engine stage (the transaction
is opened) and the metadata write itself succeeds; denials by the ban
registry, the flow-control gate or the rule engine return before the ID is
written. -/
theorem handleRequest_setsRespId_iff (env : AppEnv)
    (req : ApplicationRequest) :
    (Event.setRespId (fillId env.genId req).id ∈ (handleRequest env req).2) ↔
      (Event.txOpen (fillId env.genId req).id ∈ (handleRequest env req).2 ∧
        env.setIdErr = false) := by
  unfold handleRequest
  by_cases hrec : env.hasIPRecorder = true
  · rw [if_pos hrec]
    by_cases hb : (env.recorder.IsIPBlocked env.now
        (getRealClientIP (fillId env.genId req))).1 = true
    · rw [if_pos hb]
      cases (env.recorder.IsIPBlocked env.now
          (getRealClientIP (fillId env.genId req))).2 with
      | some record => simp
      | none => simp
    · rw [if_neg hb]
      exact handleRequestFlow_setRespId_iff env _ _
  · rw [if_neg hrec]
    exact handleRequestFlow_setRespId_iff env _ _

/-- C4 counterexample: a request denied by the flow-control gate returns
without the transaction ID ever being written to the response metadata —
refuting the claim that the ID is echoed back in every case including
denials by the ban registry, flow-control gate or rule engine. -/
theorem handleRequest_deny_without_respId_counterexample :
    let env : AppEnv :=
      { responseCheck := true, hasIPRecorder := false,
        recorder :=
          { blockedIPs := [], expiryItems := [], expiryHeap := [],
            capacity := 10000 },
        now := 50, hasFlowController := true, checkVisitErr := false,
        checkVisitAllowed := false, hasRuleEngine := true,
        ruleShouldBlock := false, ruleMatched := none, ruleMatchErr := false,
        hasLogStore := true, setIdErr := false, genId := "GENERATEDIDABCD",
        formatTime := fun t => toString t,
        waf :=
          { ruleEngineOff := false, reqHeadersIt := none,
            writeReqBodyErr := false, writeReqBodyIt := none,
            procReqBodyErr := false, procReqBodyIt := none,
            interrupted := false, matchedRulesNonempty := false } }
    let req : ApplicationRequest :=
      { srcIp := some "203.0.113.8", srcPort := 4242,
        dstIp := some "198.51.100.2", dstPort := 80, method := "GET",
        id := "REQ2", path := "/login", query := none, version := "1.1",
        headers := "", body := "" }
    (handleRequest env req).1 =
      .errInterrupted
        { ruleID := 0, action := "deny", status := 429,
          data := "Too many requests" } ∧
    (handleRequest env req).2 = [Event.flowCheck "203.0.113.8"] ∧
    ∀ i, Event.setRespId i ∉ (handleRequest env req).2 := by
  intro env req
  refine ⟨by decide, by decide, ?_⟩
  intro i
  have h2 : (handleRequest env req).2 = [Event.flowCheck "203.0.113.8"] := by
    decide
  rw [h2]
  simp

/-- Response-side behaviour of the matching-engine transaction (coraza
collaborator oracle), mirroring `WafTxOracle` for the response phase. -/
structure WafRespOracle where
  ruleEngineOff : Bool
  respHeadersIt : Option Interruption
  writeRespBodyErr : Bool
  writeRespBodyIt : Option Interruption
  procRespBodyErr : Bool
  procRespBodyIt : Option Interruption
  interrupted : Bool
  matchedRulesNonempty : Bool
deriving Repr, DecidableEq

/-- The `transaction` struct cached by `HandleRequest` (application.go):
the engine transaction handle (here its response-phase oracle), the
per-transaction finalization guard `m : sync.Mutex`, and the captured
request. -/
structure TxObj where
  locked : Bool
  waf : WafRespOracle
  request : ApplicationRequest
deriving Repr, DecidableEq

/-- `sync.Mutex.TryLock` on the finalization guard: acquire-or-fail
immediately; never released once taken. -/
def TxObj.tryLock (t : TxObj) : Bool × TxObj :=
  if t.locked then (false, t) else (true, { t with locked := true })

/-- `applicationResponse` (application.go). -/
structure ApplicationResponse where
  id : String
  version : String
  status : Int
  headers : String
  body : String
deriving Repr, DecidableEq

/-- Configuration of `Application.HandleResponse` (application.go). -/
structure RespEnv where
  responseCheck : Bool
  hasFlowController : Bool
  hasLogStore : Bool
deriving Repr, DecidableEq

/-- Engine-feeding part of `HandleResponse` (application.go): a disabled
rule engine jumps to exit; response headers are parsed and fed, then the
body, each step able to abort with an error or an interruption. -/
def responseCore (t : TxObj) (res : ApplicationResponse) :
    HandleResult × List Event :=
  if t.waf.ruleEngineOff then (.ok, [])
  else
    match readHeadersE res.headers with
    | none => (.errOther "reading headers", [])
    | some _ =>
      match t.waf.respHeadersIt with
      | some it => (.errInterrupted it, [])
      | none =>
        if t.waf.writeRespBodyErr then
          (.errOther "write response body error", [])
        else
          match t.waf.writeRespBodyIt with
          | some it => (.errInterrupted it, [])
          | none =>
            if t.waf.procRespBodyErr then
              (.errOther "process response body error", [])
            else
              match t.waf.procRespBodyIt with
              | some it => (.errInterrupted it, [])
              | none => (.ok, [])

/-- `Application.HandleResponse` (application.go), after the wire-protocol
KV parse: response inspection must be enabled and the ID nonempty; a cache
miss is logged and succeeds as a no-op; on a hit the entry is removed and
the finalization guard tried — failure returns the
"transaction is already being deleted" error with nothing further done;
success records an error-class status against flow control, feeds the
response to the engine, and — deferred, unconditionally — records attack /
synthesizes the security log from the captured request and performs the
logging hook and resource release. -/
def handleResponse (env : RespEnv) (cache : List (String × TxObj))
    (res : ApplicationResponse) :
    HandleResult × List (String × TxObj) × List Event :=
  if ¬ env.responseCheck then
    (.errOther "got response but response check is disabled", cache, [])
  else if res.id = "" then (.errOther "response id is empty", cache, [])
  else
    match mget cache res.id with
    | none => (.ok, cache, [Event.txMiss res.id])
    | some t =>
      let cache := mdel cache res.id
      let p := t.tryLock
      if ¬ p.1 then
        (.errOther ("transaction is already being deleted: " ++ res.id),
          cache, [])
      else
        let realIP := getRealClientIP t.request
        let evs0 :=
          if 400 ≤ res.status ∧ env.hasFlowController then
            [Event.recordError realIP]
          else []
        let core := responseCore t res
        let finEvs :=
          (if t.waf.interrupted ∧ env.hasLogStore then
            (if env.hasFlowController then [Event.recordAttack realIP]
             else []) ++
            (if t.waf.matchedRulesNonempty then [Event.firewallLogSave]
             else [])
          else []) ++ [Event.txLogged res.id, Event.txClosed res.id]
        (core.1, cache, evs0 ++ core.2 ++ finEvs)

/-- C9: a response-phase message whose transaction ID misses the cache
succeeds with no error; the miss is only logged (`txMiss`), the cache is
untouched, and no finalization happens. -/
theorem handleResponse_cache_miss_noop (env : RespEnv)
    (cache : List (String × TxObj)) (res : ApplicationResponse)
    (hrc : env.responseCheck = true) (hid : res.id ≠ "")
    (hmiss : mget cache res.id = none) :
    handleResponse env cache res = (.ok, cache, [Event.txMiss res.id]) ∧
    (∀ i, Event.txClosed i ∉ (handleResponse env cache res).2.2) ∧
    (∀ i, Event.txLogged i ∉ (handleResponse env cache res).2.2) := by
  have hmain : handleResponse env cache res =
      (.ok, cache, [Event.txMiss res.id]) := by
    unfold handleResponse
    rw [if_neg (by simp [hrc]), if_neg hid, hmiss]
  refine ⟨hmain, fun i => ?_, fun i => ?_⟩ <;> rw [hmain] <;> simp

/-- Closed instance of `handleResponse_cache_miss_noop`. -/
theorem handleResponse_cache_miss_noop_witness :
    let env : RespEnv :=
      { responseCheck := true, hasFlowController := true,
        hasLogStore := true }
    let res : ApplicationResponse :=
      { id := "UNKNOWNTXID", version := "1.1", status := 200,
        headers := "", body := "" }
    handleResponse env [] res = (.ok, [], [Event.txMiss "UNKNOWNTXID"]) := by
  intro env res
  exact (handleResponse_cache_miss_noop env [] res rfl (by decide) rfl).1

/-- C2 counterexample: with the cached entry's finalization guard already
taken, `HandleResponse` returns a non-nil error
(`"transaction is already being deleted: …"`) to its caller — refuting the
claim that losing the finalization-guard race surfaces no user-visible
error. -/
theorem handleResponse_lockrace_error_counterexample :
    let env : RespEnv :=
      { responseCheck := true, hasFlowController := true,
        hasLogStore := true }
    let t : TxObj :=
      { locked := true,
        waf :=
          { ruleEngineOff := false, respHeadersIt := none,
            writeRespBodyErr := false, writeRespBodyIt := none,
            procRespBodyErr := false, procRespBodyIt := none,
            interrupted := false, matchedRulesNonempty := false },
        request :=
          { srcIp := some "192.0.2.4", srcPort := 1234,
            dstIp := some "198.51.100.2", dstPort := 80, method := "GET",
            id := "T1", path := "/x", query := none, version := "1.1",
            headers := "", body := "" } }
    let res : ApplicationResponse :=
      { id := "T1", version := "1.1", status := 200, headers := "",
        body := "" }
    (handleResponse env [("T1", t)] res).1 =
      .errOther "transaction is already being deleted: T1" ∧
    (handleResponse env [("T1", t)] res).1 ≠ .ok := by
  intro env t res
  exact ⟨by decide, by decide⟩

/-- C2 (amended): when the cache entry is found but the non-blocking
acquisition of the finalization guard fails, the handler performs nothing
further — the entry is removed from the cache, no finalization, logging or
engine feeding happens (the event trace is empty) — but, unlike the claim's
"no user-visible error", it returns the non-nil
`"transaction is already being deleted"` error to its caller. -/
theorem handleResponse_lockrace_noop (env : RespEnv)
    (cache : List (String × TxObj)) (res : ApplicationResponse) (t : TxObj)
    (hrc : env.responseCheck = true) (hid : res.id ≠ "")
    (hhit : mget cache res.id = some t) (hlocked : t.locked = true) :
    handleResponse env cache res =
      (.errOther ("transaction is already being deleted: " ++ res.id),
        mdel cache res.id, []) ∧
    (∀ i, Event.txClosed i ∉ (handleResponse env cache res).2.2) ∧
    (∀ i, Event.txLogged i ∉ (handleResponse env cache res).2.2) := by
  have hmain : handleResponse env cache res =
      (.errOther ("transaction is already being deleted: " ++ res.id),
        mdel cache res.id, []) := by
    unfold handleResponse
    rw [if_neg (by simp [hrc]), if_neg hid, hhit]
    simp [TxObj.tryLock, hlocked]
  refine ⟨hmain, fun i => ?_, fun i => ?_⟩ <;> rw [hmain] <;> simp

/-- Closed instance of `handleResponse_lockrace_noop`. -/
theorem handleResponse_lockrace_noop_witness :
    let env : RespEnv :=
      { responseCheck := true, hasFlowController := false,
        hasLogStore := false }
    let t : TxObj :=
      { locked := true,
        waf :=
          { ruleEngineOff := true, respHeadersIt := none,
            writeRespBodyErr := false, writeRespBodyIt := none,
            procRespBodyErr := false, procRespBodyIt := none,
            interrupted := false, matchedRulesNonempty := false },
        request :=
          { srcIp := some "192.0.2.5", srcPort := 99,
            dstIp := some "198.51.100.2", dstPort := 80, method := "GET",
            id := "T2", path := "/y", query := none, version := "1.1",
            headers := "", body := "" } }
    let res : ApplicationResponse :=
      { id := "T2", version := "1.1", status := 500, headers := "",
        body := "" }
    handleResponse env [("T2", t)] res =
      (.errOther "transaction is already being deleted: T2", [], []) := by
  intro env t res
  exact (handleResponse_lockrace_noop env [("T2", t)] res t rfl (by decide)
    rfl rfl).1.trans (by decide)

/-- Interleaved state of the three actors racing to finalize one cached
transaction: the shared transaction object (with its guard), whether the
cache still holds the entry, how many times finalization (logging hook +
resource release) has run, and which actors hold a reference to the
object.  `respGet`/`respRemove`/`respFinalize` are the cache lookup,
removal and guard-protected teardown of `HandleResponse`
(application.go); `evictFire`/`evictFinalize` the TTL eviction callback of
`NewApplicationWithContext` (application.go); `shutdownFire`/
`shutdownFinalize` model from the spec the process-shutdown path (the
cached transaction is removed at shutdown and finalized through the same
non-blocking guard), whose code lies outside the excerpted sources. -/
structure RaceWorld where
  tx : TxObj
  inCache : Bool
  closed : Nat
  respRef : Bool
  evictRef : Bool
  shutdownRef : Bool
deriving Repr, DecidableEq

/-- One scheduler-chosen micro-step of the finalization race. -/
inductive RaceStep
  | respGet
  | respRemove
  | respFinalize
  | evictFire
  | evictFinalize
  | shutdownFire
  | shutdownFinalize
deriving Repr, DecidableEq

/-- Effect of one micro-step: lookups hand the actor a reference while the
entry is cached; each finalize step runs `TryLock` on the shared guard and
tears the transaction down only on acquisition (`HandleResponse` and the
eviction callback both follow this shape; a failed acquisition does
nothing). -/
def raceStep (w : RaceWorld) (s : RaceStep) : RaceWorld :=
  match s with
  | .respGet => if w.inCache then { w with respRef := true } else w
  | .respRemove => if w.respRef then { w with inCache := false } else w
  | .respFinalize =>
    if w.respRef then
      let p := w.tx.tryLock
      if p.1 then { w with tx := p.2, closed := w.closed + 1 }
      else { w with tx := p.2 }
    else w
  | .evictFire =>
    if w.inCache then { w with inCache := false, evictRef := true } else w
  | .evictFinalize =>
    if w.evictRef then
      let p := w.tx.tryLock
      if p.1 then { w with tx := p.2, closed := w.closed + 1 }
      else { w with tx := p.2 }
    else w
  | .shutdownFire =>
    if w.inCache then { w with inCache := false, shutdownRef := true }
    else w
  | .shutdownFinalize =>
    if w.shutdownRef then
      let p := w.tx.tryLock
      if p.1 then { w with tx := p.2, closed := w.closed + 1 }
      else { w with tx := p.2 }
    else w

/-- An arbitrary interleaving of the three actors' micro-steps. -/
def runRace (w : RaceWorld) (steps : List RaceStep) : RaceWorld :=
  steps.foldl raceStep w

/-- Finalization budget: finalization count plus one pending permit while
the guard is still free.  Never increases under any micro-step. -/
def raceMeasure (w : RaceWorld) : Nat :=
  w.closed + (if w.tx.locked then 0 else 1)

theorem raceStep_measure_le (w : RaceWorld) (s : RaceStep) :
    raceMeasure (raceStep w s) ≤ raceMeasure w := by
  cases s <;> unfold raceStep raceMeasure TxObj.tryLock <;>
    by_cases h : w.tx.locked <;> simp [h] <;> split <;> simp [h] <;> omega

theorem runRace_measure_le (w : RaceWorld) (steps : List RaceStep) :
    raceMeasure (runRace w steps) ≤ raceMeasure w := by
  induction steps generalizing w with
  | nil => exact Nat.le_refl _
  | cons s rest ih =>
    exact Nat.le_trans (ih (raceStep w s)) (raceStep_measure_le w s)

/-- C1: starting from a freshly cached transaction (guard free, not yet
finalized), every interleaving of the response handler's, the TTL eviction
callback's and the shutdown path's micro-steps finalizes the transaction
at most once; and the guard is the sole arbiter — if the guard was never
acquired, no finalization happened at all. -/
theorem race_finalize_at_most_once (w : RaceWorld) (steps : List RaceStep)
    (h0 : w.closed = 0) (hl : w.tx.locked = false) :
    (runRace w steps).closed ≤ 1 ∧
    ((runRace w steps).tx.locked = false → (runRace w steps).closed = 0) := by
  have hm := runRace_measure_le w steps
  unfold raceMeasure at hm
  rw [h0, hl] at hm
  simp only [Nat.zero_add] at hm
  constructor
  · by_cases h : (runRace w steps).tx.locked <;> simp [h] at hm <;> omega
  · intro hfree
    simp [hfree] at hm
    omega

/-- Closed instance of `race_finalize_at_most_once`: the response handler
looks the entry up, eviction fires and wins the guard, the response
handler and the shutdown path both lose — exactly one finalization. -/
theorem race_finalize_at_most_once_witness :
    let w : RaceWorld :=
      { tx :=
          { locked := false,
            waf :=
              { ruleEngineOff := false, respHeadersIt := none,
                writeRespBodyErr := false, writeRespBodyIt := none,
                procRespBodyErr := false, procRespBodyIt := none,
                interrupted := false, matchedRulesNonempty := false },
            request :=
              { srcIp := some "192.0.2.9", srcPort := 7,
                dstIp := some "198.51.100.2", dstPort := 80,
                method := "GET", id := "T9", path := "/z", query := none,
                version := "1.1", headers := "", body := "" } },
        inCache := true, closed := 0, respRef := false, evictRef := false,
        shutdownRef := false }
    let steps : List RaceStep :=
      [RaceStep.respGet, RaceStep.evictFire, RaceStep.evictFinalize,
       RaceStep.respRemove, RaceStep.respFinalize, RaceStep.shutdownFire,
       RaceStep.shutdownFinalize]
    (runRace w steps).closed ≤ 1 ∧ (runRace w steps).closed = 1 := by
  intro w steps
  exact ⟨(race_finalize_at_most_once w steps rfl rfl).1, by decide⟩
